import Mathlib

/-!
Verification development for the MoonDog Throttle Quadrant firmware
(`src/main.cpp`, Arduino Leonardo).  The signal-conditioning core is
embedded shallowly:

* the rolling-average filter (per-axis circular buffer, running sum,
  write cursor) becomes a `FilterState` record with a `pushFilter`
  transition;
* Arduino's `map`/`constrain` become integer functions, with C `long`
  division modelled by `Int.tdiv` (truncation toward zero);
* `applyDeadband` becomes a pure state transformer on the
  `lastStableOutput` cell of one axis;
* the virtual trim accumulator (C `float`) is modelled over `ℚ`: every
  reachable value is a multiple of `1/2` with magnitude at most `1535.5`,
  all of which a 32-bit float represents exactly, so rational arithmetic
  is a faithful model of the float arithmetic on the reachable states;
  the C `(int)` cast is truncation toward zero (`castTrunc`).
-/

namespace Quadrant

/-- `filterWindowSize = 10` from the source. -/
def filterWindowSize : ℕ := 10

/-- `AXIS_RAW_MIN[i]` — every entry is `196` in the source. -/
def AXIS_RAW_MIN : Int := 196

/-- `AXIS_RAW_MAX[i]` — every entry is `1023` in the source. -/
def AXIS_RAW_MAX : Int := 1023

/-- Arduino `constrain(amt, low, high) = (amt<low ? low : (amt>high ? high : amt))`. -/
def constrain (x lo hi : Int) : Int :=
  if x < lo then lo else if x > hi then hi else x

/-- Arduino `map(x, in_min, in_max, out_min, out_max)`:
`(x - in_min) * (out_max - out_min) / (in_max - in_min) + out_min`
computed in C `long` arithmetic; `/` is truncation toward zero. -/
def map (x inMin inMax outMin outMax : Int) : Int :=
  ((x - inMin) * (outMax - outMin)).tdiv (inMax - inMin) + outMin

/-- The fixed calibration mapping applied to a smoothed value in
`getSmoothedAxis`: `constrain(map(v, 196, 1023, 0, 1023), 0, 1023)`. -/
def mapFixed (v : Int) : Int :=
  constrain (map v AXIS_RAW_MIN AXIS_RAW_MAX 0 1023) 0 1023

/-- `applyDeadband` from the source, on one axis cell: the state is that
axis's `lastStableOutput`, `T` its `DEADZONE_THRESHOLDS` entry.  Returns
(new `lastStableOutput`, returned value); the source returns the cell
after the conditional update. -/
def applyDeadband (T last currentMapped : Int) : Int × Int :=
  let delta := |currentMapped - last|
  let last' := if delta ≥ T then currentMapped else last
  (last', last')

/-- Iterate `applyDeadband` over a list of mapped inputs, collecting the
returned values. -/
def deadbandRun (T last : Int) : List Int → List Int
  | [] => []
  | x :: xs => (applyDeadband T last x).2 :: deadbandRun T (applyDeadband T last x).1 xs

/-! ### Helper lemmas -/

theorem constrain_mono {x y lo hi : Int} (hlh : lo ≤ hi) (h : x ≤ y) :
    constrain x lo hi ≤ constrain y lo hi := by
  unfold constrain; split_ifs <;> omega

theorem mapFixed_eq (v : Int) :
    mapFixed v = constrain (((v - 196) * 1023).tdiv 827) 0 1023 := by
  unfold mapFixed map AXIS_RAW_MIN AXIS_RAW_MAX
  norm_num

theorem constrain_nonneg (x : Int) : 0 ≤ constrain x 0 1023 := by
  unfold constrain; split_ifs <;> omega

theorem constrain_le_top (x : Int) : constrain x 0 1023 ≤ 1023 := by
  unfold constrain; split_ifs <;> omega

theorem tdiv_le_tdiv_of_nonneg {a b c : Int} (ha : 0 ≤ a) (hab : a ≤ b)
    (hc : 0 < c) : a.tdiv c ≤ b.tdiv c := by
  rw [Int.tdiv_eq_ediv ha hc.le, Int.tdiv_eq_ediv (ha.trans hab) hc.le]
  exact Int.ediv_le_ediv hc hab

theorem tdiv_nonpos_of_nonpos {a c : Int} (ha : a ≤ 0) (hc : 0 ≤ c) :
    a.tdiv c ≤ 0 := by
  have h1 : 0 ≤ (-a).tdiv c := Int.tdiv_nonneg (by omega) hc
  have h2 : (-a).tdiv c = -(a.tdiv c) := Int.neg_tdiv a c
  omega

theorem mapFixed_nonneg (v : Int) : 0 ≤ mapFixed v :=
  constrain_nonneg _

/-! ### C6 — fixed calibration mapping -/

/-- C6: the fixed-bounds calibration mapping
`mapFixed v = constrain(map(v, 196, 1023, 0, 1023), 0, 1023)` is
non-decreasing in `v`, maps `v = 196` (the raw minimum) to `0` and
`v = 1023` (the raw maximum) to `1023`. -/
theorem mapFixed_monotone_endpoints :
    (∀ v w : Int, v ≤ w → mapFixed v ≤ mapFixed w) ∧
    mapFixed AXIS_RAW_MIN = 0 ∧ mapFixed AXIS_RAW_MAX = 1023 := by
  refine ⟨?_, by decide, by decide⟩
  intro v w hvw
  rw [mapFixed_eq v, mapFixed_eq w]
  by_cases h : (196 : Int) ≤ v
  · apply constrain_mono (by norm_num)
    have h1 : (0 : Int) ≤ (v - 196) * 1023 := by nlinarith
    have h2 : (v - 196) * 1023 ≤ (w - 196) * 1023 := by nlinarith
    exact tdiv_le_tdiv_of_nonneg h1 h2 (by norm_num)
  · push_neg at h
    have hd : ((v - 196) * 1023).tdiv 827 ≤ 0 :=
      tdiv_nonpos_of_nonpos (by nlinarith) (by norm_num)
    unfold constrain
    split_ifs <;> omega

/-- Witness for C6: a concrete monotonicity instance. -/
theorem mapFixed_monotone_endpoints_witness :
    (300 : Int) ≤ 400 ∧ mapFixed 300 ≤ mapFixed 400 :=
  ⟨by decide, mapFixed_monotone_endpoints.1 300 400 (by decide)⟩

/-! ### C1 — adaptive deadband contract -/

/-- C1: deadband correctness.  If `|curr - last| < T` the cell and the
returned value are unchanged; if `|curr - last| ≥ T` the cell is set to
`curr` and the returned value is exactly `curr`; the returned value
always equals the (updated) `lastStableOutput`; and with `T = 0` every
change passes through. -/
theorem applyDeadband_correct (T last curr : Int) :
    (|curr - last| < T → applyDeadband T last curr = (last, last)) ∧
    (T ≤ |curr - last| → applyDeadband T last curr = (curr, curr)) ∧
    (applyDeadband T last curr).2 = (applyDeadband T last curr).1 ∧
    applyDeadband 0 last curr = (curr, curr) := by
  refine ⟨fun h => ?_, fun h => ?_, rfl, ?_⟩
  · simp only [applyDeadband]
    rw [if_neg (by omega)]
  · simp only [applyDeadband]
    rw [if_pos (by omega)]
  · simp only [applyDeadband]
    rw [if_pos (abs_nonneg _)]

/-- Witness for C1 at concrete inputs: a small step is suppressed, a
large one accepted. -/
theorem applyDeadband_correct_witness :
    applyDeadband 2 10 11 = (10, 10) ∧ applyDeadband 2 10 13 = (13, 13) :=
  ⟨(applyDeadband_correct 2 10 11).1 (by decide),
   (applyDeadband_correct 2 10 13).2.1 (by decide)⟩

/-! ### C8 — deadband scenario C -/

/-- C8 counterexample: with `T = 1` and `lastStableOutput = 10`, the
input sequence `[10, 10, 11, 10]` does NOT produce `[10, 10, 11, 11]`:
the final reversal `11 → 10` has `|10 - 11| = 1 ≥ T` and is accepted, so
the code outputs `[10, 10, 11, 10]`. -/
theorem deadbandRun_scenarioC_counterexample :
    deadbandRun 1 10 [10, 10, 11, 10] ≠ [10, 10, 11, 11] := by decide

/-- C8 amended: with `T = 1` and `lastStableOutput = 10`, the mapped
input sequence `[10, 10, 11, 10]` produces the output sequence
`[10, 10, 11, 10]` — a step of exactly 1 meets `≥ T` in either
direction, so the final change back to 10 is also accepted. -/
theorem deadbandRun_scenarioC :
    deadbandRun 1 10 [10, 10, 11, 10] = [10, 10, 11, 10] := by decide

/-! ### Rolling-average filter (axisBuffers / axisSums / axisIndices) -/

/-- One axis's share of `axisBuffers[a]`, `axisSums[a]`, `axisIndices[a]`. -/
structure FilterState where
  buf : List Int
  sum : Int
  idx : ℕ
deriving DecidableEq

/-- The per-axis priming loop in `setup`: each of the `filterWindowSize`
slots is set to `initVal` and `initVal` is added to the (initially zero)
sum once per slot; the index is left at `0`. -/
def primeFilter (initVal : Int) : FilterState :=
  { buf := List.replicate filterWindowSize initVal
    sum := (List.replicate filterWindowSize initVal).sum
    idx := 0 }

/-- The filter-update portion of `getSmoothedAxis`: subtract the slot at
the cursor from the sum, overwrite it with `raw`, add `raw`, advance the
cursor modulo `filterWindowSize`, and return `axisSums / filterWindowSize`
(C integer division) as `averageOut`. -/
def pushFilter (s : FilterState) (raw : Int) : FilterState × Int :=
  let sum1 := s.sum - s.buf.getD s.idx 0 + raw
  let buf1 := s.buf.set s.idx raw
  let idx1 := (s.idx + 1) % filterWindowSize
  (⟨buf1, sum1, idx1⟩, sum1.tdiv (filterWindowSize : Int))

/-- Iterate `pushFilter` over a list of raw samples, collecting the
averages. -/
def runFilter (s : FilterState) : List Int → FilterState × List Int
  | [] => (s, [])
  | r :: rs =>
    let p := pushFilter s r
    let q := runFilter p.1 rs
    (q.1, p.2 :: q.2)

theorem getD_replicate {a : Int} {n i : ℕ} (h : i < n) :
    (List.replicate n a).getD i 0 = a := by
  induction n generalizing i with
  | zero => omega
  | succ m ih =>
    cases i with
    | zero => rfl
    | succ j => exact ih (by omega)

theorem set_replicate_self (a : Int) (n i : ℕ) :
    (List.replicate n a).set i a = List.replicate n a := by
  induction n generalizing i with
  | zero => rfl
  | succ m ih =>
    cases i with
    | zero => rfl
    | succ j => simp [List.replicate, List.set, ih j]

theorem sum_set_getD (l : List Int) (i : ℕ) (a : Int) (h : i < l.length) :
    (l.set i a).sum = l.sum - l.getD i 0 + a := by
  induction l generalizing i with
  | nil => simp at h
  | cons x xs ih =>
    cases i with
    | zero => simp [List.set]; ring
    | succ j =>
      have hj : j < xs.length := by simpa using h
      simp only [List.set, List.sum_cons, List.getD_cons_succ, ih j hj]
      ring

/-- All-constant filter state with cursor `i`. -/
def constState (v : Int) (i : ℕ) : FilterState :=
  { buf := List.replicate filterWindowSize v
    sum := (List.replicate filterWindowSize v).sum
    idx := i }

theorem sum_replicate_int (n : ℕ) (v : Int) :
    (List.replicate n v).sum = (n : Int) * v := by
  induction n with
  | zero => simp
  | succ m ih => simp [List.replicate, ih]; ring

theorem pushFilter_const (v : Int) (i : ℕ) (h : i < filterWindowSize) :
    pushFilter (constState v i) v = (constState v ((i + 1) % filterWindowSize), v) := by
  unfold pushFilter constState
  simp only [getD_replicate h, set_replicate_self]
  have hsum : (List.replicate filterWindowSize v).sum - v + v
      = (List.replicate filterWindowSize v).sum := by ring
  rw [hsum, sum_replicate_int]
  have : ((filterWindowSize : Int) * v).tdiv (filterWindowSize : Int) = v :=
    Int.mul_tdiv_cancel_left v (by decide)
  rw [this]

theorem runFilter_const (v : Int) (n : ℕ) :
    ∀ i, i < filterWindowSize →
      (runFilter (constState v i) (List.replicate n v)).2 = List.replicate n v := by
  induction n with
  | zero => intro i _; rfl
  | succ m ih =>
    intro i hi
    have hstep := pushFilter_const v i hi
    simp only [List.replicate, runFilter, hstep]
    rw [ih ((i + 1) % filterWindowSize) (Nat.mod_lt _ (by decide))]

/-! ### C3 — priming eliminates the warm-up transient -/

/-- C3: after priming with the first raw sample `v`, the first computed
rolling average equals `v`, and for constant input `v` the filter output
equals `v` on every one of the following `n` cycles (no warm-up
transient). -/
theorem filter_primed_const (v : Int) (n : ℕ) :
    (pushFilter (primeFilter v) v).2 = v ∧
    (runFilter (primeFilter v) (List.replicate n v)).2 = List.replicate n v := by
  have hprime : primeFilter v = constState v 0 := rfl
  constructor
  · rw [hprime]
    have := pushFilter_const v 0 (by decide)
    rw [this]
  · rw [hprime]
    exact runFilter_const v n 0 (by decide)

/-! ### C4 — filter structural invariant -/

/-- The invariant of one axis's filter: the buffer has the fixed window
length, the cursor is in range, and the running sum equals the sum of
the buffer's contents. -/
def FilterInv (s : FilterState) : Prop :=
  s.buf.length = filterWindowSize ∧ s.idx < filterWindowSize ∧ s.sum = s.buf.sum

instance (s : FilterState) : Decidable (FilterInv s) := by
  unfold FilterInv; infer_instance

/-- C4: priming establishes the filter invariant, and every push
preserves it; moreover each push advances the cursor by exactly one
modulo the window capacity (hence the cursor always stays in
`[0, filterWindowSize - 1]`). -/
theorem filter_invariant :
    (∀ v : Int, FilterInv (primeFilter v)) ∧
    (∀ (s : FilterState) (raw : Int), FilterInv s →
      FilterInv (pushFilter s raw).1 ∧
      (pushFilter s raw).1.idx = (s.idx + 1) % filterWindowSize) := by
  constructor
  · intro v
    exact ⟨by simp [primeFilter], show (0:ℕ) < filterWindowSize by decide, rfl⟩
  · intro s raw ⟨hlen, hidx, hsum⟩
    have hidx' : s.idx < s.buf.length := by omega
    refine ⟨⟨?_, ?_, ?_⟩, rfl⟩
    · simpa [pushFilter] using hlen
    · exact Nat.mod_lt _ (by decide)
    · simp only [pushFilter]
      rw [sum_set_getD s.buf s.idx raw hidx', hsum]

/-- Witness for C4: the invariant holds after priming with `5` and
pushing `7`. -/
theorem filter_invariant_witness :
    FilterInv (pushFilter (primeFilter 5) 7).1 :=
  (filter_invariant.2 (primeFilter 5) 7 (by decide)).1

/-! ### Virtual trim accumulator (accumulatedTrim / lastTrimAvg) -/

/-- Arduino `constrain` on the (exactly-represented) float domain,
modelled over `ℚ`. -/
def constrainQ (x lo hi : ℚ) : ℚ :=
  if x < lo then lo else if x > hi then hi else x

/-- `TRIM_INCREMENT_SCALE = 0.5f` from the source. -/
def TRIM_INCREMENT_SCALE : ℚ := 1 / 2

/-- The C `(int)` cast applied to a float: truncation toward zero. -/
def castTrunc (q : ℚ) : Int :=
  if 0 ≤ q then ⌊q⌋ else ⌈q⌉

/-- The trim state: `accumulatedTrim` (seeded to `512.0`) and
`lastTrimAvg`. -/
structure TrimState where
  accumulatedTrim : ℚ
  lastTrimAvg : ℚ
deriving DecidableEq

/-- One accumulation step on the position alone:
`position ↦ constrain(position + delta * TRIM_INCREMENT_SCALE, 0, 1023)`. -/
def trimAccumStep (pos d : ℚ) : ℚ :=
  constrainQ (pos + d * TRIM_INCREMENT_SCALE) 0 1023

/-- The trim branch of `readAxes`, given the current smoothed value
`avg`: `delta = avg - lastTrimAvg`; `lastTrimAvg = avg`; accumulate and
clamp; emit `(int)accumulatedTrim` via `setZAxis`. -/
def trimStep (t : TrimState) (avg : Int) : TrimState × Int :=
  let acc := trimAccumStep t.accumulatedTrim ((avg : ℚ) - t.lastTrimAvg)
  (⟨acc, (avg : ℚ)⟩, castTrunc acc)

/-- Iterate `trimStep` over successive smoothed values, collecting the
emitted Z-axis values. -/
def runTrim (t : TrimState) : List Int → TrimState × List Int
  | [] => (t, [])
  | a :: as =>
    let p := trimStep t a
    let q := runTrim p.1 as
    (q.1, p.2 :: q.2)

/-- Accumulate a list of deltas with per-step clamping. -/
def trimFold (pos : ℚ) (ds : List ℚ) : ℚ :=
  List.foldl trimAccumStep pos ds

/-- Consecutive differences of a list of smoothed values, starting from
a given previous value. -/
def deltasFrom (a0 : ℚ) : List Int → List ℚ
  | [] => []
  | x :: xs => ((x : ℚ) - a0) :: deltasFrom (x : ℚ) xs

theorem constrainQ_nonneg (x : ℚ) : 0 ≤ constrainQ x 0 1023 := by
  unfold constrainQ; split_ifs <;> linarith

theorem constrainQ_le_top (x : ℚ) : constrainQ x 0 1023 ≤ 1023 := by
  unfold constrainQ; split_ifs <;> linarith

theorem runTrim_fold (avgs : List Int) :
    ∀ t : TrimState,
      (runTrim t avgs).1.accumulatedTrim
        = trimFold t.accumulatedTrim (deltasFrom t.lastTrimAvg avgs) := by
  induction avgs with
  | nil => intro t; rfl
  | cons a as ih =>
    intro t
    simp only [runTrim, trimFold, deltasFrom, List.foldl]
    exact ih ⟨trimAccumStep t.accumulatedTrim ((a : ℚ) - t.lastTrimAvg), (a : ℚ)⟩

theorem trimFold_no_clamp (ds : List ℚ) :
    ∀ M : ℚ,
      (∀ k, k ≤ ds.length →
        0 ≤ M + (List.take k ds).sum * TRIM_INCREMENT_SCALE ∧
        M + (List.take k ds).sum * TRIM_INCREMENT_SCALE ≤ 1023) →
      trimFold M ds = M + ds.sum * TRIM_INCREMENT_SCALE := by
  induction ds with
  | nil =>
    intro M _
    simp [trimFold, TRIM_INCREMENT_SCALE]
  | cons d ds ih =>
    intro M h
    have h1 := h 1 (by simp)
    simp only [List.take, List.sum_cons, List.sum_nil, add_zero] at h1
    have hstep : trimAccumStep M d = M + d * TRIM_INCREMENT_SCALE := by
      unfold trimAccumStep constrainQ
      split_ifs <;> linarith [h1.1, h1.2]
    show trimFold (trimAccumStep M d) ds
        = M + (d :: ds).sum * TRIM_INCREMENT_SCALE
    rw [hstep, ih (M + d * TRIM_INCREMENT_SCALE) ?side]
    · simp only [List.sum_cons]; ring
    case side =>
      intro k hk
      have h2 := h (k + 1) (by simpa using Nat.succ_le_succ hk)
      simp only [List.take, List.sum_cons] at h2
      constructor
      · have := h2.1; ring_nf at this ⊢; linarith
      · have := h2.2; ring_nf at this ⊢; linarith

/-! ### C2 — trim integration law -/

/-- A concrete smoothed-value trajectory for the trim axis: the average
climbs in steps of at most `102` (one window-share of a full-scale raw
jump), touches the top, then falls back. -/
def trimProbeAvgs : List Int :=
  [100, 200, 300, 400, 500, 600, 700, 800, 900, 1000, 1023, 923]

/-- C2 counterexample: from the midpoint seed `512` with
`lastTrimAvg = 0` (gain `0.5`, clamp `[0, 1023]`), the smoothed-value
trajectory `trimProbeAvgs` has deltas summing to `923`, so the claimed
closed form gives `clamp(512 + 0.5·923) = 973.5`; but the code clamps
per cycle, the position saturates at `1023` on the `1023` sample and
the excess is discarded, leaving `973` after the reversal — the claimed
formula fails. -/
theorem trim_sum_law_counterexample :
    (deltasFrom 0 trimProbeAvgs).sum = 923 ∧
    (runTrim ⟨512, 0⟩ trimProbeAvgs).1.accumulatedTrim = 973 ∧
    constrainQ (512 + (923 : ℚ) * TRIM_INCREMENT_SCALE) 0 1023 ≠ 973 := by
  refine ⟨?_, ?_, ?_⟩
  · norm_num [trimProbeAvgs, deltasFrom]
  · norm_num [trimProbeAvgs, runTrim, trimStep, trimAccumStep, constrainQ,
      TRIM_INCREMENT_SCALE]
  · norm_num [constrainQ, TRIM_INCREMENT_SCALE]

/-- C2 amended: the trim position evolves by per-cycle clamped
accumulation: running the code over smoothed values equals folding
`pos ↦ clamp(pos + 0.5·d, 0, 1023)` over the consecutive deltas.  The
closed form `position_n = M + 0.5·Σd_i` holds whenever every prefix sum
stays inside `[0, 1023]` (with an engaged intermediate clamp it can
fail, as the counterexample shows).  While saturated at an edge,
further deltas in the saturating direction leave the position at that
edge (excess is not banked), and a reversing delta moves the position
immediately off the edge. -/
theorem trim_integration_amended :
    (∀ (t : TrimState) (avgs : List Int),
      (runTrim t avgs).1.accumulatedTrim
        = trimFold t.accumulatedTrim (deltasFrom t.lastTrimAvg avgs)) ∧
    (∀ (M : ℚ) (ds : List ℚ),
      (∀ k, k ≤ ds.length →
        0 ≤ M + (List.take k ds).sum * TRIM_INCREMENT_SCALE ∧
        M + (List.take k ds).sum * TRIM_INCREMENT_SCALE ≤ 1023) →
      trimFold M ds = M + ds.sum * TRIM_INCREMENT_SCALE) ∧
    (∀ d : ℚ, 0 ≤ d → trimAccumStep 1023 d = 1023) ∧
    (∀ d : ℚ, d ≤ 0 → trimAccumStep 0 d = 0) ∧
    (∀ d : ℚ, d < 0 → trimAccumStep 1023 d < 1023) ∧
    (∀ d : ℚ, 0 < d → 0 < trimAccumStep 0 d) := by
  refine ⟨fun t avgs => runTrim_fold avgs t,
          fun M ds h => trimFold_no_clamp ds M h, ?_, ?_, ?_, ?_⟩
  · intro d hd
    unfold trimAccumStep constrainQ TRIM_INCREMENT_SCALE
    split_ifs <;> linarith
  · intro d hd
    unfold trimAccumStep constrainQ TRIM_INCREMENT_SCALE
    split_ifs <;> linarith
  · intro d hd
    unfold trimAccumStep constrainQ TRIM_INCREMENT_SCALE
    split_ifs <;> linarith
  · intro d hd
    unfold trimAccumStep constrainQ TRIM_INCREMENT_SCALE
    split_ifs <;> linarith

/-- Witness for C2 (amended): Scenario-D-style deltas `[2, -1, 4]` from
the midpoint never clamp, so the closed form gives `512 + 2.5 = 514.5`;
and saturation/reversal at the upper edge behave as stated. -/
theorem trim_integration_amended_witness :
    trimFold 512 [2, -1, 4] = 1029 / 2 ∧
    trimAccumStep 1023 5 = 1023 ∧
    trimAccumStep 1023 (-1) < 1023 := by
  refine ⟨?_, trim_integration_amended.2.2.1 5 (by norm_num),
              trim_integration_amended.2.2.2.2.1 (-1) (by norm_num)⟩
  have h := trim_integration_amended.2.1 512 [2, -1, 4] ?bound
  · rw [h]; norm_num [TRIM_INCREMENT_SCALE]
  case bound =>
    intro k hk
    simp only [List.length_cons, List.length_nil] at hk
    interval_cases k <;>
      norm_num [TRIM_INCREMENT_SCALE, List.take]

/-! ### C7 — trim emission -/

/-- C7 counterexample: from `accumulatedTrim = 512`, `lastTrimAvg = 0`,
a smoothed value of `1` gives delta `1`, updated clamped position
`512.5`; the code emits `(int)512.5 = 512`, but `round(512.5) = 513`. -/
theorem trim_emit_round_counterexample :
    (trimStep ⟨512, 0⟩ 1).2 = 512 ∧
    round (trimStep ⟨512, 0⟩ 1).1.accumulatedTrim = 513 := by
  have hacc : (trimStep ⟨512, 0⟩ 1).1.accumulatedTrim = 1025 / 2 := by
    norm_num [trimStep, trimAccumStep, constrainQ, TRIM_INCREMENT_SCALE]
  constructor
  · show castTrunc (trimAccumStep 512 ((1 : ℚ) - 0)) = 512
    norm_num [castTrunc, trimAccumStep, constrainQ, TRIM_INCREMENT_SCALE]
  · rw [hacc, round_eq]
    norm_num

/-- C7 amended: each cycle the trim axis emits the truncation toward
zero of the updated clamped position, and since that position is
nonnegative this equals `⌊position⌋` — floor, not round. -/
theorem trim_emit_floor (t : TrimState) (avg : Int) :
    (trimStep t avg).2 = ⌊(trimStep t avg).1.accumulatedTrim⌋ ∧
    0 ≤ (trimStep t avg).1.accumulatedTrim := by
  have h0 : 0 ≤ trimAccumStep t.accumulatedTrim ((avg : ℚ) - t.lastTrimAvg) :=
    constrainQ_nonneg _
  exact ⟨by simp only [trimStep, castTrunc, if_pos h0], h0⟩

/-! ### Whole-loop state: `readAxes`, `printAxisDebug`, `loop` -/

/-- `getSmoothedAxis` for one axis: filter update, then fixed
calibration mapping with the output clamp.  Returns
(new filter state, `averageOut`, constrained mapped value);
`rawOut` is the argument itself. -/
def getSmoothedAxis (s : FilterState) (raw : Int) : FilterState × Int × Int :=
  let p := pushFilter s raw
  (p.1, p.2, mapFixed p.2)

/-- One axis's mutable cells: its filter and its `lastStableOutput`. -/
structure AxisState where
  filter : FilterState
  lastStable : Int
deriving DecidableEq

/-- One ordinary-axis pass (smoothing, mapping, deadband) with deadband
threshold `T`; returns the new axis state and the transmitted value. -/
def axisCycle (T : Int) (a : AxisState) (raw : Int) : AxisState × Int :=
  let g := getSmoothedAxis a.filter raw
  let d := applyDeadband T a.lastStable g.2.2
  (⟨g.1, d.1⟩, d.2)

/-- The mutable state the main loop touches: axes 0–5 (axis 6 is primed
in `setup` but never read in `loop`), plus the trim accumulator.
The per-axis `DEADZONE_THRESHOLDS` are `1, 1, 0, 0, 0, 0`;
`TRIM_AXIS_INDEX = 2`. -/
structure SysState where
  ax0 : AxisState
  ax1 : AxisState
  ax2 : AxisState
  ax3 : AxisState
  ax4 : AxisState
  ax5 : AxisState
  accumulatedTrim : ℚ
  lastTrimAvg : ℚ
deriving DecidableEq

/-- `readAxes` from the source: axes 0–5, where axis 2 (trim) computes
its mapped value but ignores it, feeds the smoothed average to the trim
accumulator, and skips the deadband.  Output list in the order
`[X, Y, Z, Rx, Ry, Rz]` as sent to the `Joystick` sink. -/
def readAxes (s : SysState) (r0 r1 r2 r3 r4 r5 : Int) : SysState × List Int :=
  let p0 := axisCycle 1 s.ax0 r0
  let p1 := axisCycle 1 s.ax1 r1
  let g2 := getSmoothedAxis s.ax2.filter r2
  let t2 := trimStep ⟨s.accumulatedTrim, s.lastTrimAvg⟩ g2.2.1
  let p3 := axisCycle 0 s.ax3 r3
  let p4 := axisCycle 0 s.ax4 r4
  let p5 := axisCycle 0 s.ax5 r5
  ({ ax0 := p0.1, ax1 := p1.1, ax2 := ⟨g2.1, s.ax2.lastStable⟩
     ax3 := p3.1, ax4 := p4.1, ax5 := p5.1
     accumulatedTrim := t2.1.accumulatedTrim, lastTrimAvg := t2.1.lastTrimAvg },
   [p0.2, p1.2, t2.2, p3.2, p4.2, p5.2])

/-- The state effect of `printAxisDebug`: for each axis 0–5 — the trim
axis included — it calls `getSmoothedAxis` (a fresh filter push) and
`applyDeadband` (a `lastStableOutput` update; threshold 0 for axis 2);
the printed raw/avg/mapped/delta text has no further state effect and is
not modelled. -/
def printAxisDebug (s : SysState) (r0 r1 r2 r3 r4 r5 : Int) : SysState :=
  let p0 := axisCycle 1 s.ax0 r0
  let p1 := axisCycle 1 s.ax1 r1
  let p2 := axisCycle 0 s.ax2 r2
  let p3 := axisCycle 0 s.ax3 r3
  let p4 := axisCycle 0 s.ax4 r4
  let p5 := axisCycle 0 s.ax5 r5
  { ax0 := p0.1, ax1 := p1.1, ax2 := p2.1, ax3 := p3.1, ax4 := p4.1, ax5 := p5.1
    accumulatedTrim := s.accumulatedTrim, lastTrimAvg := s.lastTrimAvg }

/-- One `loop` iteration's axis-state effect: `readAxes` (raw samples
`r0..r5`), then `printAxisDebug` (fresh raw samples `q0..q5`);
`readButtons` and `delay(100)` touch no axis state. -/
def loopCycle (s : SysState) (r0 r1 r2 r3 r4 r5 q0 q1 q2 q3 q4 q5 : Int) :
    SysState × List Int :=
  let p := readAxes s r0 r1 r2 r3 r4 r5
  (printAxisDebug p.1 q0 q1 q2 q3 q4 q5, p.2)

/-- A concrete system state: every axis primed from a raw sample of
`500` (as `setup` does), trim accumulator at its seed. -/
def debugProbe : SysState :=
  { ax0 := ⟨primeFilter 500, mapFixed 500⟩
    ax1 := ⟨primeFilter 500, mapFixed 500⟩
    ax2 := ⟨primeFilter 500, mapFixed 500⟩
    ax3 := ⟨primeFilter 500, mapFixed 500⟩
    ax4 := ⟨primeFilter 500, mapFixed 500⟩
    ax5 := ⟨primeFilter 500, mapFixed 500⟩
    accumulatedTrim := 512
    lastTrimAvg := 500 }

/-! ### C5 — the debug path is not observational -/

/-- C5 counterexample: producing the debug listing does change control
state.  From the concrete primed state `debugProbe`, one
`printAxisDebug` pass with raw samples `500` leaves a different state
(every filter cursor has advanced). -/
theorem printAxisDebug_mutates :
    printAxisDebug debugProbe 500 500 500 500 500 500 ≠ debugProbe := by
  intro h
  have h2 := congrArg (fun s => s.ax0.filter.idx) h
  simp [printAxisDebug, axisCycle, getSmoothedAxis, pushFilter, debugProbe,
    primeFilter, filterWindowSize] at h2

/-- C5 amended: `printAxisDebug` leaves the trim accumulator state
(`accumulatedTrim`, `lastTrimAvg`) unchanged and the serial text has no
other feedback path, but it repeats the per-axis smoothing push and
deadband update: each filter cursor advances once more (so over a full
`loop` cycle every axis filter mutates twice, its cursor advancing by
two), and even the trim axis's `lastStableOutput` is rewritten by the
debug pass's threshold-0 deadband call. -/
theorem printAxisDebug_effect (s : SysState) (r0 r1 r2 r3 r4 r5 : Int) :
    (printAxisDebug s r0 r1 r2 r3 r4 r5).accumulatedTrim = s.accumulatedTrim ∧
    (printAxisDebug s r0 r1 r2 r3 r4 r5).lastTrimAvg = s.lastTrimAvg ∧
    (printAxisDebug s r0 r1 r2 r3 r4 r5).ax0.filter.idx
      = (s.ax0.filter.idx + 1) % filterWindowSize ∧
    (printAxisDebug s r0 r1 r2 r3 r4 r5).ax2.lastStable
      = (applyDeadband 0 s.ax2.lastStable (getSmoothedAxis s.ax2.filter r2).2.2).1 ∧
    ∀ q0 q1 q2 q3 q4 q5 : Int,
      (loopCycle s r0 r1 r2 r3 r4 r5 q0 q1 q2 q3 q4 q5).1.ax0.filter.idx
        = (s.ax0.filter.idx + 2) % filterWindowSize := by
  refine ⟨rfl, rfl, rfl, rfl, ?_⟩
  intro q0 q1 q2 q3 q4 q5
  show ((s.ax0.filter.idx + 1) % filterWindowSize + 1) % filterWindowSize
      = (s.ax0.filter.idx + 2) % filterWindowSize
  unfold filterWindowSize
  omega

/-! ### C10 — transmitted axis values are bounded -/

theorem mapFixed_le_top (v : Int) : mapFixed v ≤ 1023 :=
  constrain_le_top _

theorem axisCycle_out_range (T : Int) (a : AxisState) (raw : Int)
    (hT : T ≤ 1) :
    0 ≤ (axisCycle T a raw).2 ∧ (axisCycle T a raw).2 ≤ 1023 := by
  have hm0 : 0 ≤ mapFixed (pushFilter a.filter raw).2 := mapFixed_nonneg _
  have hm1 : mapFixed (pushFilter a.filter raw).2 ≤ 1023 := mapFixed_le_top _
  simp only [axisCycle, getSmoothedAxis, applyDeadband]
  split_ifs with h
  · exact ⟨hm0, hm1⟩
  · push_neg at h
    have habs : |mapFixed (pushFilter a.filter raw).2 - a.lastStable| = 0 :=
      le_antisymm (by omega) (abs_nonneg _)
    have heq : mapFixed (pushFilter a.filter raw).2 - a.lastStable = 0 :=
      abs_eq_zero.mp habs
    constructor <;> omega

theorem castTrunc_range {q : ℚ} (h0 : 0 ≤ q) (h1 : q ≤ 1023) :
    0 ≤ castTrunc q ∧ castTrunc q ≤ 1023 := by
  unfold castTrunc
  rw [if_pos h0]
  refine ⟨Int.floor_nonneg.mpr h0, ?_⟩
  have := Int.floor_le_floor h1
  have h1023 : ⌊(1023 : ℚ)⌋ = 1023 := by norm_num
  omega

/-- C10: for arbitrary integer raw samples and an arbitrary current
state, every axis value `readAxes` hands to the output sink lies in
`[0, 1023]`: ordinary axes are clamped by `constrain` before the
deadband, the threshold-≤-1 deadband can only return the current
clamped value (a suppressed change means the stored value equals it),
and the trim position is clamped before the `(int)` cast — so even the
unclamped `lastStableOutput` seed written by `setup` can never be
emitted out of range. -/
theorem readAxes_outputs_in_range (s : SysState) (r0 r1 r2 r3 r4 r5 : Int) :
    ∀ x ∈ (readAxes s r0 r1 r2 r3 r4 r5).2, 0 ≤ x ∧ x ≤ 1023 := by
  intro x hx
  have hz : 0 ≤ (trimStep ⟨s.accumulatedTrim, s.lastTrimAvg⟩
      (getSmoothedAxis s.ax2.filter r2).2.1).1.accumulatedTrim ∧
      (trimStep ⟨s.accumulatedTrim, s.lastTrimAvg⟩
      (getSmoothedAxis s.ax2.filter r2).2.1).1.accumulatedTrim ≤ 1023 :=
    ⟨constrainQ_nonneg _, constrainQ_le_top _⟩
  have hzr := castTrunc_range hz.1 hz.2
  simp only [readAxes, List.mem_cons, List.not_mem_nil, or_false] at hx
  rcases hx with h | h | h | h | h | h <;> subst h
  · exact axisCycle_out_range 1 s.ax0 r0 (by omega)
  · exact axisCycle_out_range 1 s.ax1 r1 (by omega)
  · exact hzr
  · exact axisCycle_out_range 0 s.ax3 r3 (by omega)
  · exact axisCycle_out_range 0 s.ax4 r4 (by omega)
  · exact axisCycle_out_range 0 s.ax5 r5 (by omega)

/-- Witness for C10: the X-axis value emitted from the primed probe
state is in range. -/
theorem readAxes_outputs_in_range_witness :
    0 ≤ (axisCycle 1 debugProbe.ax0 500).2 ∧
    (axisCycle 1 debugProbe.ax0 500).2 ≤ 1023 :=
  readAxes_outputs_in_range debugProbe 500 500 500 500 500 500
    (axisCycle 1 debugProbe.ax0 500).2 (by simp [readAxes])

/-! ### C9 — dynamic calibration (not present in src/main.cpp) -/

/-- Modelled from the spec: the dynamic calibration policy does not
appear in `src/main.cpp` (which uses only the fixed bounds
`AXIS_RAW_MIN`/`AXIS_RAW_MAX`); spec §4.2: "`min`/`max` initialize to
the first observed raw sample and are widened (never narrowed) whenever
a new raw sample falls outside the current range."  Initialization. -/
def dynInit (v : Int) : Int × Int := (v, v)

/-- Modelled from the spec: widening update of the learned bounds
`(min, max)` on observing raw sample `v`. -/
def dynUpdate (b : Int × Int) (v : Int) : Int × Int :=
  (if v < b.1 then v else b.1, if v > b.2 then v else b.2)

/-- C9: under the dynamic calibration policy, one update never raises
`min` nor lowers `max` and leaves `min ≤ v ≤ max` for the value just
processed; across any input sequence `min` never increases and `max`
never decreases; and the bounds start at the first observed sample. -/
theorem dynBounds_monotone :
    (∀ (b : Int × Int) (v : Int),
      (dynUpdate b v).1 ≤ b.1 ∧ b.2 ≤ (dynUpdate b v).2 ∧
      (dynUpdate b v).1 ≤ v ∧ v ≤ (dynUpdate b v).2) ∧
    (∀ (vs : List Int) (b : Int × Int),
      (List.foldl dynUpdate b vs).1 ≤ b.1 ∧ b.2 ≤ (List.foldl dynUpdate b vs).2) ∧
    (∀ v : Int, dynInit v = (v, v)) := by
  refine ⟨?_, ?_, fun _ => rfl⟩
  · intro b v
    unfold dynUpdate
    split_ifs <;> constructor <;> try constructor
    all_goals simp_all <;> omega
  · intro vs
    induction vs with
    | nil => intro b; exact ⟨le_refl _, le_refl _⟩
    | cons v vs ih =>
      intro b
      have h1 : (dynUpdate b v).1 ≤ b.1 ∧ b.2 ≤ (dynUpdate b v).2 := by
        unfold dynUpdate; constructor <;> split_ifs <;> omega
      have h2 := ih (dynUpdate b v)
      exact ⟨le_trans h2.1 h1.1, le_trans h1.2 h2.2⟩

end Quadrant
